import Mathlib

/-!
Verification of the PDFLingo layout-preserving reconstruction pipeline.

The definitions below are a shallow embedding of the per-page translation
pipeline of src/App.tsx: the font mapper getFont, the canvas color sampling,
the sentinel-delimiter batch join/split, the font-size fitting, and the
per-run erase-and-paint draw loop of handleTranslate.  JavaScript strings are
modelled as List Char, JavaScript numbers as exact rationals, the rendered
canvas as a pixel function, and the translation provider, the redactor and
the font-metrics function as opaque function parameters.
-/

/- Core rational arithmetic is shipped irreducible, which blocks kernel-checked
evaluation of the embedding on concrete pages; restore the default
reducibility so that closed runs of the pipeline can be settled by decide. -/
set_option allowUnsafeReducibility true in
attribute [semireducible] Rat.mul Rat.add Rat.sub Rat.div Rat.inv Rat.neg Rat.blt
  Rat.normalize Rat.floor Rat.ceil

/-! ## String utilities (substring search, lowercasing, blank test) -/

/-- Boolean test that the first list is a leading segment of the second.
Mirrors the position-by-position comparison that JavaScript substring search
performs at one candidate offset. -/
def headMatch : List Char → List Char → Bool
  | [], _ => true
  | _ :: _, [] => false
  | c :: cs, d :: ds => (c == d) && headMatch cs ds

/-- Boolean substring containment: some offset of the haystack starts with the
needle.  Mirrors JavaScript String.prototype.includes. -/
def containsStr (s needle : List Char) : Bool :=
  match s with
  | [] => headMatch needle []
  | c :: rest => headMatch needle (c :: rest) || containsStr rest needle

/-- Boolean suffix test, via reversal and `headMatch`. -/
def endsWithB (s t : List Char) : Bool := headMatch t.reverse s.reverse

/-- Character-wise lowercasing, mirroring String.prototype.toLowerCase on the
ASCII font names the program classifies. -/
def lowerStr (s : List Char) : List Char := s.map Char.toLower

/-- True when the JavaScript string would have empty trimmed text
(item.str.trim().length === 0), i.e. every character is whitespace. -/
def blank (s : List Char) : Bool := s.all Char.isWhitespace

/-! ## Sentinel batch protocol (App.tsx lines 214 and 223) -/

/-- The sentinel delimiter " ||| " used to pack the page's texts into one
translation request and to unpack the response. -/
def sentinel : List Char := [' ', '|', '|', '|', ' ']

/-- The first four characters of the sentinel; a text ending with these merges
with a following delimiter when the batch is joined. -/
def brokenTail : List Char := [' ', '|', '|', '|']

/-- textsToProcess.join(' ||| '): intercalates the sentinel between the texts. -/
def joinSentinel : List (List Char) → List Char
  | [] => []
  | [t] => t
  | t :: ts => t ++ sentinel ++ joinSentinel ts

/-- Fuelled worker for sentinel splitting.  Scans left to right; at the first
offset where the sentinel starts, the accumulated segment is emitted and the
scan resumes after the delimiter, exactly as String.prototype.split does.
The fuel is always instantiated with the length of the scanned list, where the
fallback branch is unreachable. -/
def splitGo : Nat → List Char → List Char → List (List Char)
  | _, [], acc => [acc.reverse]
  | 0, c :: rest, acc => [acc.reverse ++ (c :: rest)]
  | fuel + 1, c :: rest, acc =>
    if headMatch sentinel (c :: rest) then
      acc.reverse :: splitGo fuel (rest.drop 4) []
    else
      splitGo fuel rest (c :: acc)

/-- translatedFullText.split(' ||| '). -/
def splitSentinel (s : List Char) : List (List Char) := splitGo s.length s []

/-! ## Font resolution (App.tsx getFont, lines 22-54) -/

/-- The twelve standard substitute fonts of pdf-lib that getFont maps into. -/
inductive StandardFonts
  | TimesRoman
  | TimesRomanBold
  | TimesRomanItalic
  | TimesRomanBoldItalic
  | Helvetica
  | HelveticaBold
  | HelveticaOblique
  | HelveticaBoldOblique
  | Courier
  | CourierBold
  | CourierOblique
  | CourierBoldOblique
deriving DecidableEq

/-- Spec-side font family (Serif, SansSerif, Monospace). -/
inductive FontFamily
  | serif
  | sansSerif
  | mono
deriving DecidableEq

/-- Spec-side font style (Regular, Bold, Italic, BoldItalic). -/
inductive FontStyle
  | regular
  | bold
  | italic
  | boldItalic
deriving DecidableEq

/-- lower.includes('times') on the lowercased font name. -/
def hasTimes (s : List Char) : Bool := containsStr (lowerStr s) ("times".data)

/-- lower.includes('courier') on the lowercased font name. -/
def hasCourier (s : List Char) : Bool := containsStr (lowerStr s) ("courier".data)

/-- lower.includes('bold') on the lowercased font name. -/
def hasBold (s : List Char) : Bool := containsStr (lowerStr s) ("bold".data)

/-- lower.includes('italic') || lower.includes('oblique') on the lowercased name. -/
def hasItalic (s : List Char) : Bool :=
  containsStr (lowerStr s) ("italic".data) || containsStr (lowerStr s) ("oblique".data)

/-- Embedding of getFont (App.tsx lines 22-54): classify the raw font name by
case-insensitive substring tests and combine family, weight and slant. -/
def getFont (fontName : List Char) : StandardFonts :=
  let isBold := hasBold fontName
  let isItalic := hasItalic fontName
  let baseFont : StandardFonts :=
    if hasTimes fontName then StandardFonts.TimesRoman
    else if hasCourier fontName then StandardFonts.Courier
    else StandardFonts.Helvetica
  if isBold && isItalic then
    if baseFont = StandardFonts.TimesRoman then StandardFonts.TimesRomanBoldItalic
    else if baseFont = StandardFonts.Courier then StandardFonts.CourierBoldOblique
    else StandardFonts.HelveticaBoldOblique
  else if isBold then
    if baseFont = StandardFonts.TimesRoman then StandardFonts.TimesRomanBold
    else if baseFont = StandardFonts.Courier then StandardFonts.CourierBold
    else StandardFonts.HelveticaBold
  else if isItalic then
    if baseFont = StandardFonts.TimesRoman then StandardFonts.TimesRomanItalic
    else if baseFont = StandardFonts.Courier then StandardFonts.CourierOblique
    else StandardFonts.HelveticaOblique
  else baseFont

/-- The family of one of the twelve standard fonts. -/
def familyOf : StandardFonts → FontFamily
  | StandardFonts.TimesRoman => FontFamily.serif
  | StandardFonts.TimesRomanBold => FontFamily.serif
  | StandardFonts.TimesRomanItalic => FontFamily.serif
  | StandardFonts.TimesRomanBoldItalic => FontFamily.serif
  | StandardFonts.Helvetica => FontFamily.sansSerif
  | StandardFonts.HelveticaBold => FontFamily.sansSerif
  | StandardFonts.HelveticaOblique => FontFamily.sansSerif
  | StandardFonts.HelveticaBoldOblique => FontFamily.sansSerif
  | StandardFonts.Courier => FontFamily.mono
  | StandardFonts.CourierBold => FontFamily.mono
  | StandardFonts.CourierOblique => FontFamily.mono
  | StandardFonts.CourierBoldOblique => FontFamily.mono

/-- The style of one of the twelve standard fonts. -/
def styleOf : StandardFonts → FontStyle
  | StandardFonts.TimesRoman => FontStyle.regular
  | StandardFonts.TimesRomanBold => FontStyle.bold
  | StandardFonts.TimesRomanItalic => FontStyle.italic
  | StandardFonts.TimesRomanBoldItalic => FontStyle.boldItalic
  | StandardFonts.Helvetica => FontStyle.regular
  | StandardFonts.HelveticaBold => FontStyle.bold
  | StandardFonts.HelveticaOblique => FontStyle.italic
  | StandardFonts.HelveticaBoldOblique => FontStyle.boldItalic
  | StandardFonts.Courier => FontStyle.regular
  | StandardFonts.CourierBold => FontStyle.bold
  | StandardFonts.CourierOblique => FontStyle.italic
  | StandardFonts.CourierBoldOblique => FontStyle.boldItalic

/-- Spec-side family classification, following the spec's words: Serif if the
name contains "times", Monospace if it contains "courier", else SansSerif. -/
def specFamily (n : List Char) : FontFamily :=
  if hasTimes n then FontFamily.serif
  else if hasCourier n then FontFamily.mono
  else FontFamily.sansSerif

/-- Spec-side style classification, following the spec's words: Bold if the
name contains "bold", Italic if it contains "italic" or "oblique". -/
def specStyle (n : List Char) : FontStyle :=
  match hasBold n, hasItalic n with
  | true, true => FontStyle.boldItalic
  | true, false => FontStyle.bold
  | false, true => FontStyle.italic
  | false, false => FontStyle.regular

/-! ## Size fitting (App.tsx lines 249-261) -/

/-- The font size before the legibility clamp: start from the original height,
and scale down by originalWidth/textWidth times 0.95 only when the measured
text is wider than the original box and the box has positive width. -/
def preFit (measured origW origH : ℚ) : ℚ :=
  if origW < measured ∧ 0 < origW then origH * (origW / measured) * (95 / 100) else origH

/-- Embedding of the size computation: the pre-clamp size floored at 4
(newSize = Math.max(newSize, 4)). -/
def fitSize (measured origW origH : ℚ) : ℚ := max (preFit measured origW origH) 4

/-! ## Color sampling (App.tsx lines 163-203) -/

/-- One canvas pixel as read by getImageData: byte channels 0..255. -/
structure RGBb where
  r : Nat
  g : Nat
  b : Nat
deriving DecidableEq

/-- A drawing color as passed to pdf-lib's rgb(): unit-interval channels. -/
structure RGBf where
  r : ℚ
  g : ℚ
  b : ℚ
deriving DecidableEq

/-- rgb(1, 1, 1). -/
def whiteColor : RGBf := ⟨1, 1, 1⟩

/-- rgb(0, 0, 0). -/
def blackColor : RGBf := ⟨0, 0, 0⟩

/-- The rendered page raster: dimensions and a pixel lookup.  The lookup is
total on ℤ × ℤ; the program is supposed to only read clamped coordinates. -/
structure PixBuf where
  width : Nat
  height : Nat
  pix : ℤ → ℤ → RGBb

/-- Math.max(0, Math.min(canvas.width - 1, Math.floor(q))). -/
def clampX (buf : PixBuf) (q : ℚ) : ℤ :=
  max 0 (min ((buf.width : ℤ) - 1) (Rat.floor q))

/-- Math.max(0, Math.min(canvas.height - 1, Math.floor(q))). -/
def clampY (buf : PixBuf) (q : ℚ) : ℤ :=
  max 0 (min ((buf.height : ℤ) - 1) (Rat.floor q))

/-- The background sample coordinates (App.tsx lines 170-171): x is
Math.max(0, Math.floor(canvasX - 5)) — clamped below only — and y is fully
clamped into the buffer. -/
def bgPoint (buf : PixBuf) (cx cy ch : ℚ) : ℤ × ℤ :=
  (max 0 (Rat.floor (cx - 5)),
   max 0 (min ((buf.height : ℤ) - 1) (Rat.floor (cy - ch * (1 / 2)))))

/-- The three candidate foreground sample points in scan order: center, then
top-left biased, then bottom-right biased (App.tsx lines 174-178). -/
def candPoints (cx cy cw ch : ℚ) : List (ℚ × ℚ) :=
  [(cx + cw * (1 / 2), cy - ch * (1 / 2)),
   (cx + cw * (1 / 4), cy - ch * (1 / 4)),
   (cx + cw * (3 / 4), cy - ch * (3 / 4))]

/-- Squared Euclidean RGB distance; the code's sqrt(...) > 50 comparison is
exactly dist2 > 2500. -/
def dist2 (a b : RGBb) : ℤ :=
  ((a.r : ℤ) - (b.r : ℤ)) ^ 2 + ((a.g : ℤ) - (b.g : ℤ)) ^ 2 + ((a.b : ℤ) - (b.b : ℤ)) ^ 2

/-- The candidate loop of App.tsx lines 183-195: read each clamped candidate
point in order and stop at the first whose distance to the background sample
exceeds the threshold. -/
def pickColor (buf : PixBuf) (bg : RGBb) : List (ℚ × ℚ) → Option RGBb
  | [] => none
  | p :: rest =>
    let c := buf.pix (clampX buf p.1) (clampY buf p.2)
    if 2500 < dist2 c bg then some c else pickColor buf bg rest

/-- All pixel coordinates the sampler reads: the background point followed by
the three clamped candidate points. -/
def readPoints (buf : PixBuf) (cx cy cw ch : ℚ) : List (ℤ × ℤ) :=
  bgPoint buf cx cy ch ::
    (candPoints cx cy cw ch).map fun p => (clampX buf p.1, clampY buf p.2)

/-- A coordinate pair lies inside the buffer. -/
def inBuf (buf : PixBuf) (p : ℤ × ℤ) : Prop :=
  0 ≤ p.1 ∧ p.1 < (buf.width : ℤ) ∧ 0 ≤ p.2 ∧ p.2 < (buf.height : ℤ)

instance (buf : PixBuf) (p : ℤ × ℤ) : Decidable (inBuf buf p) := by
  unfold inBuf; infer_instance

/-- Embedding of the per-run color sampling (App.tsx lines 169-202): sample the
background just outside the box, take the first sufficiently distinct candidate
(divided by 255 into a drawing color), and otherwise fall back on white for
dark backgrounds (mean channel below 128) and black for light ones. -/
def sampleColor (buf : PixBuf) (cx cy cw ch : ℚ) : RGBf :=
  let bg := buf.pix (bgPoint buf cx cy ch).1 (bgPoint buf cx cy ch).2
  match pickColor buf bg (candPoints cx cy cw ch) with
  | some c => ⟨(c.r : ℚ) / 255, (c.g : ℚ) / 255, (c.b : ℚ) / 255⟩
  | none =>
    if ((bg.r : ℚ) + (bg.g : ℚ) + (bg.b : ℚ)) / 3 < 128 then whiteColor else blackColor

/-- Spec-side candidate selection: the first candidate color whose squared
distance to the background exceeds 50². -/
def specPick (bg : RGBb) (cands : List RGBb) : Option RGBb :=
  cands.find? fun c => decide (2500 < dist2 c bg)

/-! ## Page data model and the draw loop (App.tsx lines 158-273) -/

/-- One extracted text item: its string, baseline coordinates (transform[4],
transform[5]), box dimensions and raw font name. -/
structure TextRun where
  str : List Char
  x : ℚ
  y : ℚ
  width : ℚ
  height : ℚ
  fontName : List Char
deriving DecidableEq

/-- A draw operation emitted to the output page: drawRectangle or drawText. -/
inductive DrawOp
  | eraseRect (x y w h : ℚ) (fill : RGBf)
  | paintText (x y : ℚ) (text : List Char) (font : StandardFonts) (size : ℚ) (color : RGBf)
deriving DecidableEq

/-- The color the sampler assigns to a run, from its viewport-transformed
canvas position and its dimensions scaled by the viewport scale. -/
def colorFor (buf : PixBuf) (tc : TextRun → ℚ × ℚ) (vs : ℚ) (r : TextRun) : RGBf :=
  sampleColor buf (tc r).1 (tc r).2 (r.width * vs) (r.height * vs)

/-- itemsWithStyle (App.tsx lines 158-203): items with blank trimmed text are
passed through without a color; all others get the sampled color attached. -/
def styleItems (buf : PixBuf) (tc : TextRun → ℚ × ℚ) (vs : ℚ)
    (runs : List TextRun) : List (TextRun × Option RGBf) :=
  runs.map fun it => if blank it.str then (it, none) else (it, some (colorFor buf tc vs it))

/-- The per-item draw loop (App.tsx lines 227-273): each non-blank colored item
unconditionally draws its white cover rectangle, and additionally paints the
next unconsumed translated text when one is left, consuming it. -/
def drawLoop (m : List Char → StandardFonts → ℚ → ℚ) :
    List (TextRun × Option RGBf) → List (List Char) → List DrawOp
  | [], _ => []
  | (_, none) :: rest, ts => drawLoop m rest ts
  | (it, some c) :: rest, ts =>
    if blank it.str then drawLoop m rest ts
    else
      DrawOp.eraseRect it.x (it.y - it.height * (1 / 4)) (it.width + 1)
          (it.height * (5 / 4)) whiteColor ::
        match ts with
        | [] => drawLoop m rest []
        | t :: ts1 =>
          DrawOp.paintText it.x it.y t (getFont it.fontName)
              (fitSize (m t (getFont it.fontName) it.height) it.width it.height) c ::
            drawLoop m rest ts1

/-- The page's runs that survive the empty-trimmed-text filter. -/
def surviving (runs : List TextRun) : List TextRun :=
  runs.filter fun r => !(blank r.str)

/-- originalTexts (App.tsx line 205): the item strings with blank ones dropped. -/
def originalTextsOf (runs : List TextRun) : List (List Char) :=
  (runs.map TextRun.str).filter fun s => !(blank s)

/-- textsToProcess (App.tsx lines 208-212): the surviving texts, redacted
when anonymization is on. -/
def pageTexts (anonymize : Bool) (redact : List Char → List Char)
    (runs : List TextRun) : List (List Char) :=
  if anonymize then (originalTextsOf runs).map redact else originalTextsOf runs

/-- Embedding of the per-page body of handleTranslate (App.tsx lines 145-273):
skip the page when it has no items or no non-blank text, otherwise join the
texts with the sentinel, call the provider once, split the response on the
sentinel and run the draw loop over the styled items. -/
def reconstructPage (buf : PixBuf) (tc : TextRun → ℚ × ℚ) (vs : ℚ)
    (anonymize : Bool) (redact : List Char → List Char)
    (provider : List Char → List Char)
    (m : List Char → StandardFonts → ℚ → ℚ)
    (runs : List TextRun) : List DrawOp :=
  if runs.isEmpty then []
  else if (originalTextsOf runs).isEmpty then []
  else
    drawLoop m (styleItems buf tc vs runs)
      (splitSentinel (provider (joinSentinel (pageTexts anonymize redact runs))))

/-! ## Spec-side shapes used to state the page-level claims -/

/-- The cover rectangle a run emits: x unchanged, y lowered by a quarter of the
height, width widened by 1, height scaled by 5/4, filled white. -/
def eraseOf (r : TextRun) : DrawOp :=
  DrawOp.eraseRect r.x (r.y - r.height * (1 / 4)) (r.width + 1) (r.height * (5 / 4)) whiteColor

/-- The text paint a paired run emits: original baseline coordinates, resolved
font, fitted size and sampled color. -/
def paintOf (buf : PixBuf) (tc : TextRun → ℚ × ℚ) (vs : ℚ)
    (m : List Char → StandardFonts → ℚ → ℚ) (r : TextRun) (t : List Char) : DrawOp :=
  DrawOp.paintText r.x r.y t (getFont r.fontName)
    (fitSize (m t (getFont r.fontName) r.height) r.width r.height)
    (colorFor buf tc vs r)

/-- Spec-side description of the draw loop on the surviving runs: in original
order, a paired run contributes its erase followed immediately by its paint;
once the translated texts are exhausted a run contributes only its erase. -/
def pairedOps (buf : PixBuf) (tc : TextRun → ℚ × ℚ) (vs : ℚ)
    (m : List Char → StandardFonts → ℚ → ℚ) :
    List TextRun → List (List Char) → List DrawOp
  | [], _ => []
  | r :: rs, [] => eraseOf r :: pairedOps buf tc vs m rs []
  | r :: rs, t :: ts => eraseOf r :: paintOf buf tc vs m r t :: pairedOps buf tc vs m rs ts

/-- Test for a paint operation. -/
def isPaint : DrawOp → Bool
  | DrawOp.paintText .. => true
  | _ => false

/-- Test for an erase operation. -/
def isErase : DrawOp → Bool
  | DrawOp.eraseRect .. => true
  | _ => false

/-- Number of paint operations in an op list. -/
def paintCount (ops : List DrawOp) : Nat := (ops.filter isPaint).length

/-- Number of erase operations in an op list. -/
def eraseCount (ops : List DrawOp) : Nat := (ops.filter isErase).length

/-- Page-level failures of the spec's error taxonomy. -/
inductive PageError
  | batchMismatch
deriving DecidableEq

deriving instance DecidableEq for Except

/-- Spec-side batch translation (spec 4.3, refinement reference): join with the
sentinel, call the provider once, split the response, and report BatchMismatch
when the resulting count differs from the input count. -/
def translateBatchSpec (provider : List Char → List Char)
    (texts : List (List Char)) : Except PageError (List (List Char)) :=
  let out := splitSentinel (provider (joinSentinel texts))
  if out.length = texts.length then Except.ok out else Except.error PageError.batchMismatch

/-! ## Concrete pages, buffers and providers used by the closed theorems -/

/-- A 100 × 100 buffer that is black left of x = 10 and white from x = 10 on. -/
def bufSplitBW : PixBuf :=
  ⟨100, 100, fun x _ => if x < 10 then ⟨0, 0, 0⟩ else ⟨255, 255, 255⟩⟩

/-- A 100 × 100 buffer of uniform near-black (10, 10, 10). -/
def bufDim : PixBuf := ⟨100, 100, fun _ _ => ⟨10, 10, 10⟩⟩

/-- A 100 × 100 uniform white buffer. -/
def bufWhite : PixBuf := ⟨100, 100, fun _ _ => ⟨255, 255, 255⟩⟩

/-- Identity placement: canvas coordinates equal page coordinates. -/
def idTC : TextRun → ℚ × ℚ := fun r => (r.x, r.y)

/-- A metrics function measuring every text as width 0. -/
def zeroMeasure : List Char → StandardFonts → ℚ → ℚ := fun _ _ _ => 0

/-- The identity redactor. -/
def idRedact : List Char → List Char := fun t => t

/-- A one-character run at the origin in a 10 × 10 box with empty font name. -/
def mkRun (c : Char) : TextRun := ⟨[c], 0, 0, 10, 10, []⟩

/-- A five-run page. -/
def runs5 : List TextRun := [mkRun 'a', mkRun 'b', mkRun 'c', mkRun 'd', mkRun 'e']

/-- A two-run page. -/
def runs2 : List TextRun := [mkRun 'a', mkRun 'b']

/-- A page with a single all-whitespace run. -/
def runsBlank : List TextRun := [⟨[' '], 0, 0, 10, 10, []⟩]

/-- A provider answering with three sentinel-separated segments. -/
def prov3 : List Char → List Char := fun _ => "x ||| y ||| z".data

/-- A provider answering with a single segment. -/
def prov1 : List Char → List Char := fun _ => "x".data

/-! ## Theorems: font resolution, size fitting, single-run drawing -/

/-- Claim C3: for every translated text, resolved font, original width W and
original height H, the fitted size starts at H; if the measured width M at
size H exceeds W and W > 0 the size becomes H * (W / M) * 0.95, otherwise it
stays H (no upscaling); the result is clamped to a hard floor of 4.  In
particular M = 150, W = 100, H = 12 gives exactly 7.6 = 38/5; M = 40 gives 12;
and W = 100, H = 3 with any measured width whose pre-clamp size is below 4
gives exactly 4. -/
theorem claimC3 (M W H : ℚ) :
    (W < M → 0 < W → fitSize M W H = max (H * (W / M) * (95 / 100)) 4)
    ∧ (¬ (W < M ∧ 0 < W) → fitSize M W H = max H 4)
    ∧ (preFit M 100 3 < 4 → fitSize M 100 3 = 4)
    ∧ fitSize 150 100 12 = 38 / 5
    ∧ fitSize 40 100 12 = 12 := by
  refine ⟨?_, ?_, ?_, by decide, by decide⟩
  · intro h1 h2
    simp [fitSize, preFit, h1, h2]
  · intro h
    simp [fitSize, preFit, h]
  · intro h
    simp [fitSize]
    exact le_of_lt h

/-- Claim C4: font resolution is total, deterministic, case-insensitive and
substring-based; the resolved font's family is Serif when the lowercased name
contains "times", Monospace when it contains "courier", otherwise SansSerif,
and its style is the combination of the bold and italic/oblique substring
facts; the three concrete names of the spec resolve as stated. -/
theorem claimC4 (n : List Char) :
    familyOf (getFont n) = specFamily n
    ∧ styleOf (getFont n) = specStyle n
    ∧ getFont ("TimesNewRomanPS-BoldItalicMT".data) = StandardFonts.TimesRomanBoldItalic
    ∧ getFont ("Arial".data) = StandardFonts.Helvetica
    ∧ getFont ("CourierNewPS-BoldMT".data) = StandardFonts.CourierBold := by
  refine ⟨?_, ?_, by decide, by decide, by decide⟩
  · cases ht : hasTimes n <;> cases hc : hasCourier n <;>
      cases hb : hasBold n <;> cases hi : hasItalic n <;>
      simp [getFont, specFamily, familyOf, ht, hc, hb, hi]
  · cases ht : hasTimes n <;> cases hc : hasCourier n <;>
      cases hb : hasBold n <;> cases hi : hasItalic n <;>
      simp [getFont, specStyle, styleOf, ht, hc, hb, hi]

/-- Claim C6: a surviving run paired with a translated text emits an EraseRect
at (x, y - 0.25 * height) of size (width + 1) by (height * 1.25) filled with
the neutral background white, immediately followed by a PaintText at the
original baseline (x, y) with the resolved font, the fitted size and the
sampled color. -/
theorem claimC6 (m : List Char → StandardFonts → ℚ → ℚ) (it : TextRun) (c : RGBf)
    (t : List Char) (rest : List (TextRun × Option RGBf)) (ts : List (List Char))
    (h : blank it.str = false) :
    drawLoop m ((it, some c) :: rest) (t :: ts) =
      DrawOp.eraseRect it.x (it.y - it.height * (1 / 4)) (it.width + 1)
          (it.height * (5 / 4)) whiteColor ::
        DrawOp.paintText it.x it.y t (getFont it.fontName)
          (fitSize (m t (getFont it.fontName) it.height) it.width it.height) c ::
        drawLoop m rest ts := by
  simp [drawLoop, h]

/-- Witness for claim C6 at a concrete run, color and text. -/
theorem claimC6_witness :
    drawLoop zeroMeasure [(mkRun 'a', some blackColor)] ["x".data] =
      DrawOp.eraseRect (mkRun 'a').x ((mkRun 'a').y - (mkRun 'a').height * (1 / 4))
          ((mkRun 'a').width + 1) ((mkRun 'a').height * (5 / 4)) whiteColor ::
        DrawOp.paintText (mkRun 'a').x (mkRun 'a').y ("x".data) (getFont (mkRun 'a').fontName)
          (fitSize (zeroMeasure ("x".data) (getFont (mkRun 'a').fontName) (mkRun 'a').height)
            (mkRun 'a').width (mkRun 'a').height) blackColor ::
        drawLoop zeroMeasure [] [] :=
  claimC6 zeroMeasure (mkRun 'a') blackColor ("x".data) [] [] (by decide)

/-! ## Sentinel split/join lemmas -/

/-- A list is a leading segment of itself followed by anything. -/
theorem headMatch_app (n : List Char) : ∀ z, headMatch n (n ++ z) = true := by
  induction n with
  | nil => intro z; rfl
  | cons c cs ih => intro z; simp [headMatch, ih]

/-- A successful leading match needs at least as many characters available. -/
theorem headMatch_len : ∀ {n s : List Char}, headMatch n s = true → n.length ≤ s.length := by
  intro n
  induction n with
  | nil => intro s _; simp
  | cons c cs ih =>
    intro s h
    cases s with
    | nil => simp [headMatch] at h
    | cons d ds =>
      simp [headMatch] at h
      have := ih h.2
      simp
      omega

/-- A leading match over enough characters is unaffected by what follows. -/
theorem headMatch_stable : ∀ (n s z : List Char), n.length ≤ s.length →
    headMatch n (s ++ z) = headMatch n s := by
  intro n
  induction n with
  | nil => intro s z _; rfl
  | cons c cs ih =>
    intro s z h
    cases s with
    | nil => simp at h
    | cons d ds =>
      simp only [List.cons_append, headMatch, List.append_eq]
      rw [ih ds z (by simp at h; omega)]

/-- A suffix of a list is a suffix of any extension of that list. -/
theorem endsWithB_cons {x t : List Char} (c : Char) (h : endsWithB x t = true) :
    endsWithB (c :: x) t = true := by
  unfold endsWithB at h ⊢
  rw [List.reverse_cons, headMatch_stable _ _ _ (headMatch_len h)]
  exact h

/-- The sentinel cannot start inside a preceding text that neither contains the
sentinel nor ends with its first four characters: scanning a text followed by
a sentinel finds no sentinel start strictly before the boundary. -/
theorem sentinel_boundary (r : List Char) :
    ∀ x : List Char, x ≠ [] → containsStr x sentinel = false →
    endsWithB x brokenTail = false →
    headMatch sentinel (x ++ (sentinel ++ r)) = false := by
  have hps : ('|' == ' ') = false := by decide
  intro x hne hx he
  rcases x with _ | ⟨c1, _ | ⟨c2, _ | ⟨c3, _ | ⟨c4, _ | ⟨c5, xs⟩⟩⟩⟩⟩
  · exact absurd rfl hne
  · simp [sentinel, headMatch, hps]
  · simp [sentinel, headMatch, hps]
  · simp [sentinel, headMatch, hps]
  · apply Bool.eq_false_iff.mpr
    intro hT
    have hs : ' ' = c1 ∧ '|' = c2 ∧ '|' = c3 ∧ '|' = c4 := by
      simpa [sentinel, headMatch] using hT
    obtain ⟨e1, e2, e3, e4⟩ := hs
    subst e1; subst e2; subst e3; subst e4
    simp [endsWithB, brokenTail, headMatch] at he
  · rw [headMatch_stable sentinel (c1 :: c2 :: c3 :: c4 :: c5 :: xs) (sentinel ++ r)
      (by simp [sentinel])]
    simp only [containsStr, Bool.or_eq_false_iff] at hx
    exact hx.1

/-- The split worker does not depend on the fuel when the fuel suffices. -/
theorem splitGo_mono : ∀ (f1 f2 : Nat) (s acc : List Char), s.length ≤ f1 → s.length ≤ f2 →
    splitGo f1 s acc = splitGo f2 s acc := by
  intro f1
  induction f1 with
  | zero =>
    intro f2 s acc h1 _
    cases s with
    | nil => cases f2 <;> simp [splitGo]
    | cons c rest => simp at h1
  | succ f ih =>
    intro f2 s acc h1 h2
    cases s with
    | nil => cases f2 <;> simp [splitGo]
    | cons c rest =>
      cases f2 with
      | zero => simp at h2
      | succ g =>
        simp only [splitGo]
        by_cases hm : headMatch sentinel (c :: rest) = true
        · simp only [hm, if_true]
          rw [ih g (rest.drop 4) [] (by simp at h1 ⊢; omega) (by simp at h2 ⊢; omega)]
        · have hm' : headMatch sentinel (c :: rest) = false := Bool.eq_false_iff.mpr hm
          simp only [hm', Bool.false_eq_true, if_false]
          rw [ih g rest (c :: acc) (by simp at h1; omega) (by simp at h2; omega)]

/-- Splitting a text that contains no sentinel yields that text alone, behind
whatever was accumulated. -/
theorem splitGo_noSent : ∀ (fuel : Nat) (s acc : List Char), s.length ≤ fuel →
    containsStr s sentinel = false → splitGo fuel s acc = [acc.reverse ++ s] := by
  intro fuel
  induction fuel with
  | zero =>
    intro s acc h _
    cases s with
    | nil => simp [splitGo]
    | cons c rest => simp at h
  | succ f ih =>
    intro s acc h hc
    cases s with
    | nil => simp [splitGo]
    | cons c rest =>
      simp only [containsStr, Bool.or_eq_false_iff] at hc
      simp only [splitGo, hc.1, Bool.false_eq_true, if_false]
      rw [ih rest (c :: acc) (by simp at h; omega) hc.2]
      simp

/-- Splitting a clean text followed by a sentinel and a remainder emits exactly
that text and then splits the remainder. -/
theorem splitGo_boundary (r : List Char) :
    ∀ (x : List Char) (fuel : Nat) (acc : List Char),
      (x ++ (sentinel ++ r)).length ≤ fuel →
      containsStr x sentinel = false → endsWithB x brokenTail = false →
      splitGo fuel (x ++ (sentinel ++ r)) acc =
        (acc.reverse ++ x) :: splitGo r.length r [] := by
  intro x
  induction x with
  | nil =>
    intro fuel acc hf _ _
    cases fuel with
    | zero => simp [sentinel] at hf
    | succ f =>
      simp only [List.nil_append]
      have hhm : headMatch sentinel (sentinel ++ r) = true := headMatch_app sentinel r
      rw [show sentinel ++ r = ' ' :: ('|' :: '|' :: '|' :: ' ' :: r) from by simp [sentinel]] at hhm ⊢
      simp only [splitGo, hhm, if_true]
      have hlen : r.length ≤ f := by simp [sentinel] at hf; omega
      rw [show ('|' :: '|' :: '|' :: ' ' :: r).drop 4 = r from by simp]
      rw [splitGo_mono f r.length r [] hlen (le_refl _)]
      simp
  | cons c x1 ihx =>
    intro fuel acc hf hx he
    cases fuel with
    | zero => simp at hf
    | succ f =>
      have hb : headMatch sentinel ((c :: x1) ++ (sentinel ++ r)) = false :=
        sentinel_boundary r (c :: x1) (by simp) hx he
      simp only [List.cons_append] at hb ⊢
      simp only [splitGo, hb, Bool.false_eq_true, if_false]
      have hx1 : containsStr x1 sentinel = false := by
        simp only [containsStr, Bool.or_eq_false_iff] at hx
        exact hx.2
      have he1 : endsWithB x1 brokenTail = false := by
        cases h1 : endsWithB x1 brokenTail with
        | false => rfl
        | true =>
          have h2 := endsWithB_cons c h1
          rw [he] at h2
          exact Bool.noConfusion h2
      rw [ihx f (c :: acc) (by simp at hf ⊢; omega) hx1 he1]
      simp

/-- (c :: l).dropLast keeps the head when the tail is nonempty. -/
theorem dropLast_cons_cons (a b : List Char) (l : List (List Char)) :
    (a :: b :: l).dropLast = a :: (b :: l).dropLast := by
  simp [List.dropLast]

/-- Claim C8 (amended): splitting the sentinel-joined batch recovers the
original texts for every non-empty sequence in which no element contains the
sentinel " ||| " and no element before the last ends with the four characters
" |||" (such a trailing fragment merges with the following delimiter and
shifts the leftmost match, which the counterexample exhibits). -/
theorem claimC8 (ts : List (List Char)) (h1 : ts ≠ [])
    (h2 : ∀ t ∈ ts, containsStr t sentinel = false)
    (h3 : ∀ t ∈ ts.dropLast, endsWithB t brokenTail = false) :
    splitSentinel (joinSentinel ts) = ts := by
  induction ts with
  | nil => exact absurd rfl h1
  | cons t rest ih =>
    cases rest with
    | nil =>
      have h := splitGo_noSent (joinSentinel [t]).length (joinSentinel [t]) []
        (le_refl _) (by simpa [joinSentinel] using h2 t (by simp))
      simpa [splitSentinel, joinSentinel] using h
    | cons t2 rest2 =>
      have hj : joinSentinel (t :: t2 :: rest2) = t ++ (sentinel ++ joinSentinel (t2 :: rest2)) := by
        simp [joinSentinel]
      rw [splitSentinel, hj]
      rw [splitGo_boundary (joinSentinel (t2 :: rest2)) t _ [] (le_refl _)
        (h2 t (by simp))
        (by
          have := h3 t (by rw [dropLast_cons_cons]; exact List.mem_cons_self t _)
          exact this)]
      have hrec : splitGo (joinSentinel (t2 :: rest2)).length (joinSentinel (t2 :: rest2)) [] =
          splitSentinel (joinSentinel (t2 :: rest2)) := rfl
      rw [hrec, ih (by simp) (fun u hu => h2 u (by simp [hu]))
        (fun u hu => h3 u (by rw [dropLast_cons_cons]; exact List.mem_cons_of_mem t hu))]
      simp

/-- Counterexample to claim C8 as stated: the two-element batch
["a |||", "b"] is non-empty, neither element contains the sentinel " ||| ",
yet the joined string "a ||| ||| b" has its leftmost sentinel occurrence one
character early and splits into ["a", "||| b"], not the original sequence. -/
theorem claimC8_counterexample :
    [['a', ' ', '|', '|', '|'], ['b']] ≠ ([] : List (List Char))
    ∧ (∀ t ∈ [['a', ' ', '|', '|', '|'], ['b']], containsStr t sentinel = false)
    ∧ splitSentinel (joinSentinel [['a', ' ', '|', '|', '|'], ['b']]) = [['a'], ['|', '|', '|', ' ', 'b']]
    ∧ splitSentinel (joinSentinel [['a', ' ', '|', '|', '|'], ['b']])
        ≠ [['a', ' ', '|', '|', '|'], ['b']] := by
  refine ⟨by decide, by decide, by decide, by decide⟩

/-- Witness for claim C8 on the concrete batch ["ab", "c"]. -/
theorem claimC8_witness :
    splitSentinel (joinSentinel [['a', 'b'], ['c']]) = [['a', 'b'], ['c']] :=
  claimC8 [['a', 'b'], ['c']] (by decide) (by decide) (by decide)

/-! ## Draw-loop lemmas -/

/-- The surviving texts are exactly the texts of the surviving runs. -/
theorem textsFilter (runs : List TextRun) :
    originalTextsOf runs = (surviving runs).map TextRun.str := by
  induction runs with
  | nil => rfl
  | cons r rs ih =>
    by_cases hb : blank r.str
    · simpa [originalTextsOf, surviving, List.filter_cons, hb] using ih
    · simpa [originalTextsOf, surviving, List.filter_cons, hb] using ih

/-- Filtering the surviving runs again changes nothing. -/
theorem surviving_idem (runs : List TextRun) : surviving (surviving runs) = surviving runs := by
  unfold surviving
  apply List.filter_eq_self.mpr
  intro a ha
  exact (List.mem_filter.mp ha).2

/-- The draw loop over the styled items is the paired spec-side op list over
the surviving runs. -/
theorem drawLoop_styleItems (buf : PixBuf) (tc : TextRun → ℚ × ℚ) (vs : ℚ)
    (m : List Char → StandardFonts → ℚ → ℚ) :
    ∀ (runs : List TextRun) (ts : List (List Char)),
      drawLoop m (styleItems buf tc vs runs) ts = pairedOps buf tc vs m (surviving runs) ts := by
  intro runs
  induction runs with
  | nil => intro ts; rfl
  | cons r rs ih =>
    intro ts
    by_cases hb : blank r.str
    · simp only [styleItems, List.map_cons, hb, if_true]
      simp only [drawLoop]
      simpa [surviving, List.filter_cons, hb] using ih ts
    · have hb' : blank r.str = false := Bool.eq_false_iff.mpr hb
      simp only [styleItems, List.map_cons, hb', Bool.false_eq_true, if_false]
      rw [show surviving (r :: rs) = r :: surviving rs from by
        simp [surviving, List.filter_cons, hb']]
      cases ts with
      | nil =>
        simp only [drawLoop, hb', Bool.false_eq_true, if_false, pairedOps, eraseOf]
        exact congrArg _ (ih [])
      | cons t ts1 =>
        simp only [drawLoop, hb', Bool.false_eq_true, if_false, pairedOps, eraseOf, paintOf]
        exact congrArg _ (congrArg _ (ih ts1))

/-- The page reconstruction is the paired op list of the surviving runs and
the split provider response. -/
theorem reconstructPage_pairedOps (buf : PixBuf) (tc : TextRun → ℚ × ℚ) (vs : ℚ)
    (anonymize : Bool) (redact : List Char → List Char) (provider : List Char → List Char)
    (m : List Char → StandardFonts → ℚ → ℚ) (runs : List TextRun) :
    reconstructPage buf tc vs anonymize redact provider m runs =
      pairedOps buf tc vs m (surviving runs)
        (splitSentinel (provider (joinSentinel (pageTexts anonymize redact runs)))) := by
  unfold reconstructPage
  cases h0 : runs.isEmpty with
  | true =>
    have : runs = [] := by simpa using h0
    subst this
    simp [surviving, pairedOps]
  | false =>
    cases h1 : (originalTextsOf runs).isEmpty with
    | true =>
      have ht : originalTextsOf runs = [] := by simpa using h1
      have hs : surviving runs = [] := by
        have := textsFilter runs
        rw [ht] at this
        exact (List.map_eq_nil_iff.mp this.symm)
      simp [hs, pairedOps]
    | false =>
      simp only [Bool.false_eq_true, if_false]
      exact drawLoop_styleItems buf tc vs m runs _

/-- Erase and paint counts of the paired op list: one erase per run, one paint
per run matched with a text. -/
theorem pairedOps_counts (buf : PixBuf) (tc : TextRun → ℚ × ℚ) (vs : ℚ)
    (m : List Char → StandardFonts → ℚ → ℚ) :
    ∀ (rs : List TextRun) (ts : List (List Char)),
      eraseCount (pairedOps buf tc vs m rs ts) = rs.length
      ∧ paintCount (pairedOps buf tc vs m rs ts) = min rs.length ts.length := by
  intro rs
  induction rs with
  | nil => intro ts; simp [pairedOps, eraseCount, paintCount]
  | cons r rs ih =>
    intro ts
    cases ts with
    | nil =>
      have h := ih []
      simp [pairedOps, eraseCount, paintCount, List.filter_cons, eraseOf, paintOf,
        isErase, isPaint] at h ⊢
      exact h
    | cons t ts1 =>
      have h := ih ts1
      simp [pairedOps, eraseCount, paintCount, List.filter_cons, eraseOf, paintOf,
        isErase, isPaint] at h ⊢
      refine ⟨h.1, ?_⟩
      rw [h.2]
      omega

/-- Texts beyond the number of runs have no effect on the paired op list. -/
theorem pairedOps_take (buf : PixBuf) (tc : TextRun → ℚ × ℚ) (vs : ℚ)
    (m : List Char → StandardFonts → ℚ → ℚ) :
    ∀ (rs : List TextRun) (ts : List (List Char)), rs.length ≤ ts.length →
      pairedOps buf tc vs m rs ts = pairedOps buf tc vs m rs (ts.take rs.length) := by
  intro rs
  induction rs with
  | nil => intro ts _; simp [pairedOps]
  | cons r rs ih =>
    intro ts h
    cases ts with
    | nil => simp at h
    | cons t ts1 =>
      simp only [pairedOps, List.length_cons, List.take_succ_cons]
      rw [ih ts1 (by simp at h; omega)]

/-! ## Theorems: page-level pairing, filtering and batch-mismatch behavior -/

/-- Claim C2 (amended): the page output is exactly the paired op list over the
surviving runs in original order — each run paired with the next unconsumed
translated text contributes one EraseRect immediately followed by its
PaintText, and once the translated texts run out each remaining surviving run
still contributes its EraseRect (and only that; no PaintText). -/
theorem claimC2 (buf : PixBuf) (tc : TextRun → ℚ × ℚ) (vs : ℚ)
    (anonymize : Bool) (redact : List Char → List Char) (provider : List Char → List Char)
    (m : List Char → StandardFonts → ℚ → ℚ) (runs : List TextRun) :
    reconstructPage buf tc vs anonymize redact provider m runs =
      pairedOps buf tc vs m (surviving runs)
        (splitSentinel (provider (joinSentinel (pageTexts anonymize redact runs)))) :=
  reconstructPage_pairedOps buf tc vs anonymize redact provider m runs

/-- Counterexample to claim C2 as stated: on a two-run page whose provider
answers a single segment, the unpaired second run still emits a draw
operation — its EraseRect — so the output is not just the paired run's
erase-paint pair. -/
theorem claimC2_counterexample :
    reconstructPage bufWhite idTC 3 false idRedact prov1 zeroMeasure runs2 =
      [eraseOf (mkRun 'a'),
       DrawOp.paintText 0 0 ("x".data) StandardFonts.Helvetica 10 blackColor,
       eraseOf (mkRun 'b')]
    ∧ reconstructPage bufWhite idTC 3 false idRedact prov1 zeroMeasure runs2 ≠
      [eraseOf (mkRun 'a'),
       DrawOp.paintText 0 0 ("x".data) StandardFonts.Helvetica 10 blackColor] := by
  refine ⟨by decide, by decide⟩

/-- Claim C1 (amended): a count mismatch between the provider's split response
and the texts sent raises nothing — the page-level loop always completes,
emitting one EraseRect per surviving run and PaintTexts for exactly
min(number of surviving runs, number of returned segments) runs. -/
theorem claimC1 (buf : PixBuf) (tc : TextRun → ℚ × ℚ) (vs : ℚ)
    (anonymize : Bool) (redact : List Char → List Char) (provider : List Char → List Char)
    (m : List Char → StandardFonts → ℚ → ℚ) (runs : List TextRun) :
    eraseCount (reconstructPage buf tc vs anonymize redact provider m runs) =
      (surviving runs).length
    ∧ paintCount (reconstructPage buf tc vs anonymize redact provider m runs) =
      min (surviving runs).length
        (splitSentinel (provider (joinSentinel (pageTexts anonymize redact runs)))).length := by
  rw [reconstructPage_pairedOps]
  exact pairedOps_counts buf tc vs m (surviving runs) _

/-- Counterexample to claim C1 as stated: a 5-run page whose provider response
splits into 3 segments (two fewer than sent) raises no BatchMismatch — the
spec-side checked batch reports the mismatch, yet the page-level operation
still returns draw operations, partially recovering 3 of the 5 runs. -/
theorem claimC1_counterexample :
    (pageTexts false idRedact runs5).length = 5
    ∧ (splitSentinel (prov3 (joinSentinel (pageTexts false idRedact runs5)))).length = 3
    ∧ translateBatchSpec prov3 (pageTexts false idRedact runs5) =
        Except.error PageError.batchMismatch
    ∧ reconstructPage bufWhite idTC 3 false idRedact prov3 zeroMeasure runs5 ≠ []
    ∧ paintCount (reconstructPage bufWhite idTC 3 false idRedact prov3 zeroMeasure runs5) = 3
    ∧ eraseCount (reconstructPage bufWhite idTC 3 false idRedact prov3 zeroMeasure runs5) = 5 := by
  refine ⟨by decide, by decide, by decide, by decide, by decide, by decide⟩

/-- Claim C9: runs with blank trimmed text are excluded from all downstream
processing — reconstructing a page equals reconstructing only its surviving
runs, in preserved order — and a page with no surviving runs yields the empty
op sequence (for every provider and redactor, so neither is consulted). -/
theorem claimC9 (buf : PixBuf) (tc : TextRun → ℚ × ℚ) (vs : ℚ)
    (anonymize : Bool) (redact : List Char → List Char) (provider : List Char → List Char)
    (m : List Char → StandardFonts → ℚ → ℚ) (runs : List TextRun) :
    reconstructPage buf tc vs anonymize redact provider m runs =
      reconstructPage buf tc vs anonymize redact provider m (surviving runs)
    ∧ ((surviving runs).isEmpty = true →
        reconstructPage buf tc vs anonymize redact provider m runs = []) := by
  have htex : originalTextsOf (surviving runs) = originalTextsOf runs := by
    rw [textsFilter (surviving runs), surviving_idem, textsFilter runs]
  have hpt : pageTexts anonymize redact (surviving runs) = pageTexts anonymize redact runs := by
    unfold pageTexts
    rw [htex]
  constructor
  · rw [reconstructPage_pairedOps, reconstructPage_pairedOps, surviving_idem, hpt]
  · intro he
    have hs : surviving runs = [] := by simpa using he
    rw [reconstructPage_pairedOps, hs]
    simp [pairedOps]

/-- Witness for claim C9: a page whose only run is all-whitespace reconstructs
to the empty op sequence. -/
theorem claimC9_witness :
    reconstructPage bufWhite idTC 3 false idRedact prov1 zeroMeasure runsBlank = [] :=
  (claimC9 bufWhite idTC 3 false idRedact prov1 zeroMeasure runsBlank).2 (by decide)

/-- Claim C10: when the provider's response splits into at least as many
segments as there are surviving runs, the surplus segments are discarded
without effect — the page equals the paired op list over only the first
(number of surviving runs) segments — every surviving run receives its erase
and its paint, and no failure is signalled. -/
theorem claimC10 (buf : PixBuf) (tc : TextRun → ℚ × ℚ) (vs : ℚ)
    (anonymize : Bool) (redact : List Char → List Char) (provider : List Char → List Char)
    (m : List Char → StandardFonts → ℚ → ℚ) (runs : List TextRun)
    (h : (surviving runs).length ≤
      (splitSentinel (provider (joinSentinel (pageTexts anonymize redact runs)))).length) :
    reconstructPage buf tc vs anonymize redact provider m runs =
      pairedOps buf tc vs m (surviving runs)
        ((splitSentinel (provider (joinSentinel (pageTexts anonymize redact runs)))).take
          (surviving runs).length)
    ∧ paintCount (reconstructPage buf tc vs anonymize redact provider m runs) =
        (surviving runs).length
    ∧ eraseCount (reconstructPage buf tc vs anonymize redact provider m runs) =
        (surviving runs).length := by
  have hc := pairedOps_counts buf tc vs m (surviving runs)
    (splitSentinel (provider (joinSentinel (pageTexts anonymize redact runs))))
  refine ⟨?_, ?_, ?_⟩
  · rw [reconstructPage_pairedOps]
    exact pairedOps_take buf tc vs m (surviving runs) _ h
  · rw [reconstructPage_pairedOps, hc.2]
    omega
  · rw [reconstructPage_pairedOps, hc.1]

/-- Witness for claim C10: a two-run page with a three-segment response paints
both runs and erases both runs. -/
theorem claimC10_witness :
    paintCount (reconstructPage bufWhite idTC 3 false idRedact prov3 zeroMeasure runs2) =
      (surviving runs2).length
    ∧ eraseCount (reconstructPage bufWhite idTC 3 false idRedact prov3 zeroMeasure runs2) =
      (surviving runs2).length :=
  ⟨(claimC10 bufWhite idTC 3 false idRedact prov3 zeroMeasure runs2 (by decide)).2.1,
   (claimC10 bufWhite idTC 3 false idRedact prov3 zeroMeasure runs2 (by decide)).2.2⟩

/-! ## Theorems: color sampling and buffer bounds -/

/-- The candidate loop equals first-match selection over the clamped candidate
colors in order. -/
theorem pickColor_find (buf : PixBuf) (bg : RGBb) : ∀ pts : List (ℚ × ℚ),
    pickColor buf bg pts =
      specPick bg (pts.map fun p => buf.pix (clampX buf p.1) (clampY buf p.2)) := by
  intro pts
  induction pts with
  | nil => rfl
  | cons p rest ih =>
    by_cases h : 2500 < dist2 (buf.pix (clampX buf p.1) (clampY buf p.2)) bg
    · simp only [pickColor, specPick, List.map_cons]
      rw [List.find?_cons_of_pos _ (by simpa using h)]
      simp [h]
    · simp only [pickColor, specPick, List.map_cons] at ih ⊢
      rw [List.find?_cons_of_neg _ (by simpa using h)]
      simp [h, ih]

/-- Claim C5: the sampler examines the three candidate points in order
(center, top-left biased, bottom-right biased) and returns the first candidate
whose squared RGB distance to the background sample exceeds 50² = 2500,
divided by 255 into a drawing color; with no qualifying candidate it returns
white when the background luminance (mean channel) is below 128 and black
otherwise.  Concretely: black background with white candidates is accepted as
white, and a uniform (10,10,10) buffer falls back to white. -/
theorem claimC5 (buf : PixBuf) (cx cy cw ch : ℚ) :
    sampleColor buf cx cy cw ch =
      (match specPick (buf.pix (bgPoint buf cx cy ch).1 (bgPoint buf cx cy ch).2)
          ((candPoints cx cy cw ch).map fun p => buf.pix (clampX buf p.1) (clampY buf p.2)) with
       | some c => ⟨(c.r : ℚ) / 255, (c.g : ℚ) / 255, (c.b : ℚ) / 255⟩
       | none =>
         if ((buf.pix (bgPoint buf cx cy ch).1 (bgPoint buf cx cy ch).2).r
              + ((buf.pix (bgPoint buf cx cy ch).1 (bgPoint buf cx cy ch).2).g : ℚ)
              + (buf.pix (bgPoint buf cx cy ch).1 (bgPoint buf cx cy ch).2).b) / 3 < 128
         then whiteColor else blackColor)
    ∧ sampleColor bufSplitBW 12 50 40 10 = whiteColor
    ∧ sampleColor bufDim 12 50 40 10 = whiteColor := by
  refine ⟨?_, by decide, by decide⟩
  unfold sampleColor
  simp only [pickColor_find]

/-- The fully clamped x coordinate lies inside a nonempty buffer. -/
theorem clampX_bounds (buf : PixBuf) (hw : 1 ≤ buf.width) (q : ℚ) :
    0 ≤ clampX buf q ∧ clampX buf q < (buf.width : ℤ) := by
  unfold clampX
  refine ⟨le_max_left 0 _, max_lt (by omega) ?_⟩
  exact lt_of_le_of_lt (min_le_left _ _) (by omega)

/-- The fully clamped y coordinate lies inside a nonempty buffer. -/
theorem clampY_bounds (buf : PixBuf) (hh : 1 ≤ buf.height) (q : ℚ) :
    0 ≤ clampY buf q ∧ clampY buf q < (buf.height : ℤ) := by
  unfold clampY
  refine ⟨le_max_left 0 _, max_lt (by omega) ?_⟩
  exact lt_of_le_of_lt (min_le_left _ _) (by omega)

/-- Claim C7 (amended): on a nonempty buffer every candidate sample point is
clamped into bounds, and the background point's y coordinate likewise; the
background point's x coordinate however is clamped only below at 0, and is
inside the buffer only under the extra hypothesis that floor(canvasX - 5)
is below the width (the code has no upper clamp there). -/
theorem claimC7 (buf : PixBuf) (cx cy cw ch : ℚ)
    (hw : 1 ≤ buf.width) (hh : 1 ≤ buf.height) :
    (∀ p ∈ (candPoints cx cy cw ch).map (fun p => (clampX buf p.1, clampY buf p.2)),
      inBuf buf p)
    ∧ 0 ≤ (bgPoint buf cx cy ch).1
    ∧ 0 ≤ (bgPoint buf cx cy ch).2
    ∧ (bgPoint buf cx cy ch).2 < (buf.height : ℤ)
    ∧ (Rat.floor (cx - 5) < (buf.width : ℤ) →
        (bgPoint buf cx cy ch).1 < (buf.width : ℤ)) := by
  refine ⟨?_, ?_, ?_, ?_, ?_⟩
  · intro p hp
    simp only [candPoints, List.map_cons, List.map_nil, List.mem_cons,
      List.not_mem_nil, or_false] at hp
    rcases hp with h | h | h <;> subst h <;>
      exact ⟨(clampX_bounds buf hw _).1, (clampX_bounds buf hw _).2,
        (clampY_bounds buf hh _).1, (clampY_bounds buf hh _).2⟩
  · exact le_max_left 0 _
  · exact le_max_left 0 _
  · exact max_lt (by omega) (lt_of_le_of_lt (min_le_left _ _) (by omega))
  · intro hfl
    exact max_lt (by omega) hfl

/-- Counterexample to claim C7 as stated: with a 100-wide buffer and a run
whose canvas x is 200, the background sample point is (195, 45) — read by the
sampler yet outside the buffer, since its x is clamped only below. -/
theorem claimC7_counterexample :
    bgPoint bufWhite 200 50 10 ∈ readPoints bufWhite 200 50 30 10
    ∧ ¬ inBuf bufWhite (bgPoint bufWhite 200 50 10) := by
  refine ⟨by decide, by decide⟩

/-- Witness for claim C7 at a concrete in-range geometry. -/
theorem claimC7_witness :
    0 ≤ (bgPoint bufWhite 20 50 10).1
    ∧ (bgPoint bufWhite 20 50 10).1 < (bufWhite.width : ℤ) :=
  ⟨(claimC7 bufWhite 20 50 40 10 (by decide) (by decide)).2.1,
   (claimC7 bufWhite 20 50 40 10 (by decide) (by decide)).2.2.2.2 (by decide)⟩
